import Mathlib

/-!
Verification development for the directive-application engine
(`src/queries/directives.ts`) and the polling scheduler of the repository.

The GraphQL AST fragments, the rewrite functions and the skip/include
resolver are shallowly embedded from the TypeScript source.  JavaScript
`undefined` results are modelled with `Option`, thrown exceptions with
`Except String`, and the in-place mutation of the cloned document with
explicit value passing.
-/

set_option maxHeartbeats 1000000

namespace ApolloDirectives

/-- AST value node of a directive argument: a literal boolean, a variable
reference, or any other value kind (which the resolver rejects). -/
inductive Value where
  | booleanValue (b : Bool)
  | variableValue (name : String)
  | otherValue
  deriving Repr, DecidableEq

/-- AST argument node: the `name` field is the optional Name node's value,
`value` the argument's value node. -/
structure Argument where
  name : Option String
  value : Value
  deriving Repr, DecidableEq

/-- AST directive node: `name` is the optional Name node's value
(`none` models an absent Name node, `some ""` an empty one, both falsy
in the source's `directive.name && directive.name.value` guard). -/
structure Directive where
  name : Option String
  arguments : List Argument
  deriving Repr, DecidableEq

/-- AST selection node: a field (with name, directives and an optional
nested selection set), an inline fragment, or a fragment spread.  A
selection set is modelled by its ordered list of selections. -/
inductive Selection where
  | field (name : String) (directives : List Directive)
      (selectionSet : Option (List Selection))
  | inlineFragment (directives : List Directive)
      (selectionSet : List Selection)
  | fragmentSpread (name : String) (directives : List Directive)
  deriving Repr

/-- The directives attached to a selection. -/
def Selection.directives : Selection → List Directive
  | .field _ ds _ => ds
  | .inlineFragment ds _ => ds
  | .fragmentSpread _ ds => ds

/-- Variables mapping: `none` models a JavaScript `undefined` lookup. -/
def Variables := String → Option Bool

/-- `skipIncludeDirectiveResolver` from `src/queries/directives.ts`:
evaluates the `if` argument of a `skip`/`include` directive and returns
the selection (keep) or `none` (the `undefined` removal sentinel);
invalid argument shapes and undefined variables throw. -/
def skipIncludeDirectiveResolver (directiveName : String) (selection : Selection)
    (vars : Variables) (directive : Directive) :
    Except String (Option Selection) :=
  match directive.arguments with
  | [ifArgument] =>
    if ifArgument.name = some "if" then
      match ifArgument.value with
      | .booleanValue b =>
        let evaledValue := if directiveName = "skip" then !b else b
        if evaledValue then .ok (some selection) else .ok none
      | .variableValue x =>
        match vars x with
        | some b =>
          let evaledValue := if directiveName = "skip" then !b else b
          if evaledValue then .ok (some selection) else .ok none
        | none =>
          .error ("Invalid variable referenced in @" ++ directiveName ++ " directive.")
      | .otherValue =>
        .error ("Invalid argument value for the @" ++ directiveName ++ " directive.")
    else
      .error ("Invalid argument for the @" ++ directiveName ++ " directive.")
  | _ =>
    -- the source's template literal is malformed here, so the message is literal
    .error "Incorrect number of arguments for the @$(directiveName\x7d directive."

/-- A directive resolver value.  The source's only resolver is
`skipIncludeDirectiveResolver` (partially applied to a directive name, as
in `skipDirectiveResolver` / `includeDirectiveResolver`); every such
resolver returns its input selection or the removal sentinel, which is
what lets the source alias `newSelection` with `selection`. -/
inductive DirectiveResolver where
  | skipIncludeResolver (directiveName : String)
  deriving Repr, DecidableEq

/-- Apply a resolver, as the source's `directiveResolver(currSelection, variables, directive)`. -/
def runResolver : DirectiveResolver → Selection → Variables → Directive →
    Except String (Option Selection)
  | .skipIncludeResolver n, sel, vars, d => skipIncludeDirectiveResolver n sel vars d

/-- `skipDirectiveResolver` from the source. -/
def skipDirectiveResolver : DirectiveResolver := .skipIncludeResolver "skip"

/-- `includeDirectiveResolver` from the source. -/
def includeDirectiveResolver : DirectiveResolver := .skipIncludeResolver "include"

/-- The name-keyed resolver registry (`{ [name: string]: DirectiveResolver }`). -/
def Resolvers := String → Option DirectiveResolver

/-- Registry carrying the two built-in resolvers under their usual names. -/
def standardResolvers : Resolvers := fun n =>
  if n = "skip" then some skipDirectiveResolver
  else if n = "include" then some includeDirectiveResolver
  else none

/-- The mutable locals of the per-selection loop of
`applyDirectivesToSelectionSet`: `newSelection` (possibly `undefined`),
`currSelection` and the three-valued `toBeRemoved` (`null`/`true`/`false`). -/
structure RewriteState where
  newSelection : Option Selection
  currSelection : Selection
  toBeRemoved : Option Bool

/-- One iteration of the `selection.directives.forEach` loop of
`applyDirectivesToSelectionSet`.  A directive with a falsy name is
skipped; an absent registry entry is invoked anyway by the source, which
throws a `TypeError`, modelled as an `Except.error`. -/
def processDirective (directiveResolvers : Resolvers) (vars : Variables)
    (selection : Selection) (st : RewriteState) (directive : Directive) :
    Except String RewriteState :=
  match directive.name with
  | none => .ok st
  | some nm =>
    if nm = "" then .ok st
    else
      match directiveResolvers nm with
      | none => .error "TypeError: directiveResolver is not a function"
      | some r =>
        match runResolver r st.currSelection vars directive with
        | .error e => .error e
        | .ok newSelection =>
          if nm = "skip" ∨ nm = "include" then
            let st1 : RewriteState :=
              if newSelection.isNone then
                if st.toBeRemoved = none then
                  { st with newSelection := newSelection, toBeRemoved := some true }
                else
                  { st with newSelection := newSelection, currSelection := selection }
              else { st with newSelection := newSelection }
            match newSelection with
            | some s => .ok { st1 with toBeRemoved := some false, currSelection := s }
            | none => .ok st1
          else .ok { st with newSelection := newSelection }

mutual

/-- The body of the `selections.map` callback of
`applyDirectivesToSelectionSet`: run every directive through the loop,
then either recurse into the nested selection set and keep the
selection, keep `currSelection` untouched, or drop the selection
(`none`, the `undefined` the later `filter(identity)` removes).  The
source mutates `selection.selectionSet` and returns `newSelection`;
since every resolver in scope returns its input selection,
`newSelection`, when defined, is the very object `selection`, so the
kept result is the selection with its nested set rewritten. -/
def applyDirectivesToSelection (directiveResolvers : Resolvers)
    (vars : Variables) (selection : Selection) :
    Except String (Option Selection) :=
  match selection.directives.foldlM
      (processDirective directiveResolvers vars selection)
      { newSelection := some selection, currSelection := selection,
        toBeRemoved := none } with
  | .error e => .error e
  | .ok st =>
    match st.newSelection with
    | some _ =>
      match selection with
      | .inlineFragment ds ss =>
        match applyDirectivesToSelections directiveResolvers vars ss with
        | .error e => .error e
        | .ok os => .ok (some (.inlineFragment ds (os.filterMap id)))
      | .field n ds (some ss) =>
        match applyDirectivesToSelections directiveResolvers vars ss with
        | .error e => .error e
        | .ok os => .ok (some (.field n ds (some (os.filterMap id))))
      | .field n ds none => .ok (some (.field n ds none))
      | .fragmentSpread n ds => .ok (some (.fragmentSpread n ds))
    | none =>
      if st.toBeRemoved = some true then .ok none
      else .ok (some st.currSelection)

/-- The `selections.map` traversal: left-to-right, the first thrown
error aborts the whole rewrite. -/
def applyDirectivesToSelections (directiveResolvers : Resolvers)
    (vars : Variables) : List Selection →
    Except String (List (Option Selection))
  | [] => .ok []
  | s :: rest =>
    match applyDirectivesToSelection directiveResolvers vars s with
    | .error e => .error e
    | .ok o =>
      match applyDirectivesToSelections directiveResolvers vars rest with
      | .error e => .error e
      | .ok os => .ok (o :: os)

end

/-- `applyDirectivesToSelectionSet` from the source: map every selection
through the directive loop, then `filter(identity)` drops the
`undefined` entries of removed selections. -/
def applyDirectivesToSelectionSet (directiveResolvers : Resolvers)
    (vars : Variables) (selSet : List Selection) :
    Except String (List Selection) :=
  match applyDirectivesToSelections directiveResolvers vars selSet with
  | .error e => .error e
  | .ok os => .ok (os.filterMap id)

/-- AST definition node: an operation definition (with its operation
kind, e.g. `"query"` or `"mutation"`), a fragment definition, or any
other definition kind. -/
inductive Definition where
  | operationDefinition (operation : String) (selectionSet : List Selection)
  | fragmentDefinition (name : String) (selectionSet : List Selection)
  | otherDefinition
  deriving Repr

/-- AST document node: its ordered list of definitions. -/
structure Document where
  definitions : List Definition
  deriving Repr

/-- The selection set of a definition (only used on operation and
fragment definitions). -/
def Definition.selectionSet : Definition → List Selection
  | .operationDefinition _ ss => ss
  | .fragmentDefinition _ ss => ss
  | .otherDefinition => []

/-- The source's `queryDef.selectionSet = newSelSet` /
`fragmentDef.selectionSet = fragmentSelSet` assignments: the definition
with its selection set replaced. -/
def Definition.withSelectionSet : Definition → List Selection → Definition
  | .operationDefinition op _, ss => .operationDefinition op ss
  | .fragmentDefinition n _, ss => .fragmentDefinition n ss
  | .otherDefinition, _ => .otherDefinition

/-- Whether a definition is the query operation definition. -/
def Definition.isQueryDefinition : Definition → Bool
  | .operationDefinition op _ => op = "query"
  | _ => false

/-- Whether a definition is a fragment definition. -/
def Definition.isFragmentDefinition : Definition → Bool
  | .fragmentDefinition _ _ => true
  | _ => false

/-- Modelled from the spec: `getQueryDefinition` is imported from
`./getFromAST`, which is not among the provided source files.  Per the
spec's data model a document carries one operation definition whose
selection set the rewriter processes; the getter is modelled as
returning the first query operation definition of the document and
failing when there is none. -/
def getQueryDefinition (doc : Document) : Except String Definition :=
  match doc.definitions.find? Definition.isQueryDefinition with
  | some d => .ok d
  | none => .error "Must contain a query definition."

/-- Modelled from the spec: `getFragmentDefinitions` is imported from
`./getFromAST`, which is not among the provided source files.  Per the
spec the rewriter processes "every Fragment Definition's selection set";
the getter is modelled as the fragment definitions of the document, in
document order. -/
def getFragmentDefinitions (doc : Document) : List Definition :=
  doc.definitions.filter Definition.isFragmentDefinition

/-- The `fragmentDefs.map((fragmentDef) => ...)` loop of
`applyDirectives`: rewrite every fragment definition's selection set,
left to right, aborting on the first thrown error. -/
def rewriteFragmentDefs (directiveResolvers : Resolvers) (vars : Variables) :
    List Definition → Except String (List Definition)
  | [] => .ok []
  | fd :: rest =>
    match applyDirectivesToSelectionSet directiveResolvers vars fd.selectionSet with
    | .error e => .error e
    | .ok ss =>
      match rewriteFragmentDefs directiveResolvers vars rest with
      | .error e => .error e
      | .ok rest' => .ok (fd.withSelectionSet ss :: rest')

/-- `lodash.clonedeep`: produces a structurally equal document sharing
no object with its input.  On pure values the copy is the value itself;
what matters for the embedding is that the source's later writes all
target the copy. -/
def cloneDeep (doc : Document) : Document := doc

/-- `applyDirectives` from the source: deep-copy the document, rewrite
the query definition's selection set, rewrite every fragment
definition's selection set, and rebuild `definitions` as the rewritten
fragments with the rewritten query definition unshifted in front. -/
def applyDirectives (doc : Document) (vars : Variables)
    (directiveResolvers : Resolvers) : Except String Document :=
  let newDoc := cloneDeep doc
  let fragmentDefs := getFragmentDefinitions newDoc
  match getQueryDefinition newDoc with
  | .error e => .error e
  | .ok queryDef =>
    match applyDirectivesToSelectionSet directiveResolvers vars
        queryDef.selectionSet with
    | .error e => .error e
    | .ok newSelSet =>
      let queryDef := queryDef.withSelectionSet newSelSet
      match rewriteFragmentDefs directiveResolvers vars fragmentDefs with
      | .error e => .error e
      | .ok newFrags => .ok ⟨queryDef :: newFrags⟩

/-- A heap of document objects: the caller's document and the clone are
distinct references into it.  `readRef` of an unallocated reference
yields an empty document (it never arises in the theorems). -/
structure Store where
  docs : List Document

/-- Dereference a document reference. -/
def readRef (σ : Store) (r : Nat) : Document :=
  σ.docs.getD r ⟨[]⟩

/-- Mutate the document object behind a reference. -/
def writeRef (σ : Store) (r : Nat) (d : Document) : Store :=
  ⟨σ.docs.set r d⟩

/-- Allocate a fresh document object, returning its reference. -/
def allocRef (σ : Store) (d : Document) : Nat × Store :=
  (σ.docs.length, ⟨σ.docs ++ [d]⟩)

/-- The source's `queryDef.selectionSet = newSelSet` seen at document
granularity: `queryDef` is the first query operation definition of the
mutated document, so the assignment replaces that definition in place. -/
def replaceFirstQueryDef : List Definition → Definition → List Definition
  | [], _ => []
  | d :: rest, q =>
    if d.isQueryDefinition then q :: rest else d :: replaceFirstQueryDef rest q

/-- `applyDirectives` with its heap effects threaded explicitly, one
store write per assignment of the source.  `cloneDeep` allocates a
fresh document object holding a structurally equal value; every later
write — `queryDef.selectionSet = newSelSet`,
`newDoc.definitions = fragmentDefs.map(...)` (which also rewrites each
fragment definition in place) and `newDoc.definitions.unshift(queryDef)`
— goes through `writeRef` aimed at `newDocRef`, because the objects the
source assigns to are reachable only from `newDoc`.  A thrown error
returns the store as it stands at the throw. -/
def applyDirectivesProg (directiveResolvers : Resolvers) (vars : Variables)
    (callerRef : Nat) (σ : Store) : Except String Nat × Store :=
  let alloc := allocRef σ (cloneDeep (readRef σ callerRef))
  let newDocRef := alloc.1
  let σ1 := alloc.2
  let fragmentDefs := getFragmentDefinitions (readRef σ1 newDocRef)
  match getQueryDefinition (readRef σ1 newDocRef) with
  | .error e => (.error e, σ1)
  | .ok queryDef =>
    match applyDirectivesToSelectionSet directiveResolvers vars
        queryDef.selectionSet with
    | .error e => (.error e, σ1)
    | .ok newSelSet =>
      let queryDef := queryDef.withSelectionSet newSelSet
      let σ2 := writeRef σ1 newDocRef
        ⟨replaceFirstQueryDef (readRef σ1 newDocRef).definitions queryDef⟩
      match rewriteFragmentDefs directiveResolvers vars fragmentDefs with
      | .error e => (.error e, σ2)
      | .ok newFrags =>
        let σ3 := writeRef σ2 newDocRef ⟨newFrags⟩
        let σ4 := writeRef σ3 newDocRef
          ⟨queryDef :: (readRef σ3 newDocRef).definitions⟩
        (.ok newDocRef, σ4)

/-- Whether a directive is named `skip` or `include`. -/
def Directive.isSkipInclude (d : Directive) : Bool :=
  d.name = some "skip" ∨ d.name = some "include"

mutual

/-- Whether a selection still carries a `skip`/`include` directive,
anywhere in its subtree. -/
def selectionHasSkipInclude : Selection → Bool
  | .field _ ds oss =>
    ds.any Directive.isSkipInclude ||
      (match oss with
       | some ss => selectionsHaveSkipInclude ss
       | none => false)
  | .inlineFragment ds ss =>
    ds.any Directive.isSkipInclude || selectionsHaveSkipInclude ss
  | .fragmentSpread _ ds => ds.any Directive.isSkipInclude

/-- Whether any selection of a list still carries a `skip`/`include`
directive. -/
def selectionsHaveSkipInclude : List Selection → Bool
  | [] => false
  | s :: rest => selectionHasSkipInclude s || selectionsHaveSkipInclude rest

end

/-- Whether a document still carries a `skip`/`include` directive on any
selection of any of its definitions. -/
def documentHasSkipInclude (doc : Document) : Bool :=
  doc.definitions.any fun d => selectionsHaveSkipInclude d.selectionSet

/-- Whether a resolver keeps its input selection (`true`), removes it
(`false`), or throws.  `skipIncludeDirectiveResolver` decides this from
the directive and the variables alone; the selection is only a payload. -/
def resolverKeeps : DirectiveResolver → Variables → Directive → Except String Bool
  | .skipIncludeResolver directiveName, vars, d =>
    match d.arguments with
    | [ifArgument] =>
      if ifArgument.name = some "if" then
        match ifArgument.value with
        | .booleanValue b => .ok (if directiveName = "skip" then !b else b)
        | .variableValue x =>
          match vars x with
          | some b => .ok (if directiveName = "skip" then !b else b)
          | none =>
            .error ("Invalid variable referenced in @" ++ directiveName ++ " directive.")
        | .otherValue =>
          .error ("Invalid argument value for the @" ++ directiveName ++ " directive.")
      else
        .error ("Invalid argument for the @" ++ directiveName ++ " directive.")
    | _ =>
      .error "Incorrect number of arguments for the @$(directiveName\x7d directive."

/-- The payload-free part of `RewriteState`: whether `newSelection` is
currently defined, and `toBeRemoved`. -/
structure DecisionState where
  newKept : Bool
  toBeRemoved : Option Bool
  deriving Repr, DecidableEq

/-- The payload-free image of one `processDirective` iteration. -/
def decideDirective (directiveResolvers : Resolvers) (vars : Variables)
    (st : DecisionState) (directive : Directive) : Except String DecisionState :=
  match directive.name with
  | none => .ok st
  | some nm =>
    if nm = "" then .ok st
    else
      match directiveResolvers nm with
      | none => .error "TypeError: directiveResolver is not a function"
      | some r =>
        match resolverKeeps r vars directive with
        | .error e => .error e
        | .ok kept =>
          if nm = "skip" ∨ nm = "include" then
            let st1 : DecisionState :=
              if !kept then
                if st.toBeRemoved = none then ⟨kept, some true⟩
                else ⟨kept, st.toBeRemoved⟩
              else ⟨kept, st.toBeRemoved⟩
            .ok (if kept then ⟨kept, some false⟩ else st1)
          else .ok ⟨kept, st.toBeRemoved⟩

/-- The keep/remove decision the directive loop reaches on a list of
directives: a function of the directives, the registry and the
variables alone. -/
def selectionDecision (directiveResolvers : Resolvers) (vars : Variables)
    (ds : List Directive) : Except String DecisionState :=
  ds.foldlM (decideDirective directiveResolvers vars) ⟨true, none⟩

/-- The recursion step on a kept selection: rewrite the nested selection
set of a field that owns one, or of an inline fragment; leave every
other selection as it is. -/
def rewriteChildren (directiveResolvers : Resolvers) (vars : Variables) :
    Selection → Except String Selection
  | .inlineFragment ds ss =>
    match applyDirectivesToSelectionSet directiveResolvers vars ss with
    | .error e => .error e
    | .ok ss' => .ok (.inlineFragment ds ss')
  | .field n ds (some ss) =>
    match applyDirectivesToSelectionSet directiveResolvers vars ss with
    | .error e => .error e
    | .ok ss' => .ok (.field n ds (some ss'))
  | .field n ds none => .ok (.field n ds none)
  | .fragmentSpread n ds => .ok (.fragmentSpread n ds)

/-- Specification-side reading of a conditional directive, following the
claim's words: the condition's boolean value when the directive has
exactly one argument, named `if`, whose value is a literal boolean or a
variable reference bound in the variables mapping; `none` otherwise. -/
def directiveConditionValue (d : Directive) (vars : Variables) : Option Bool :=
  match d.arguments with
  | [arg] =>
    if arg.name = some "if" then
      match arg.value with
      | .booleanValue b => some b
      | .variableValue x => vars x
      | .otherValue => none
    else none
  | _ => none

/-- `applySkipResolver` from the source: apply only the `skip` resolver. -/
def applySkipResolver (doc : Document) (vars : Variables) : Except String Document :=
  applyDirectives doc vars fun n =>
    if n = "skip" then some skipDirectiveResolver else none

/-- `applyIncludeResolver` from the source: apply only the `include`
resolver. -/
def applyIncludeResolver (doc : Document) (vars : Variables) : Except String Document :=
  applyDirectives doc vars fun n =>
    if n = "include" then some includeDirectiveResolver else none

/-- A `@skip(if: <literal b>)` directive node. -/
def skipIfDirective (b : Bool) : Directive :=
  ⟨some "skip", [⟨some "if", .booleanValue b⟩]⟩

/-- An `@include(if: <literal b>)` directive node. -/
def includeIfDirective (b : Bool) : Directive :=
  ⟨some "include", [⟨some "if", .booleanValue b⟩]⟩

/-- An empty variables mapping. -/
def emptyVars : Variables := fun _ => none

/-- A field annotated `@skip(if: false) @include(if: false)`. -/
def bothFalseSelection : Selection :=
  .field "a" [skipIfDirective false, includeIfDirective false] none

/-- A field annotated `@include(if: true) @skip(if: true)` owning a
nested selection set whose only field carries `@include(if: false)`. -/
def overrideKeptSelection : Selection :=
  .field "a" [includeIfDirective true, skipIfDirective true]
    (some [.field "b" [includeIfDirective false] none])

/-- A field annotated with a directive name that has no registry entry. -/
def unknownDirectiveSelection : Selection :=
  .field "a" [⟨some "foo", []⟩] none

/-- A one-field query document whose field carries `@include(if: true)`. -/
def includeTrueDocument : Document :=
  ⟨[.operationDefinition "query" [.field "a" [includeIfDirective true] none]]⟩

/-- A document listing a fragment definition before its query operation
definition. -/
def reorderDocument : Document :=
  ⟨[.fragmentDefinition "F" [], .operationDefinition "query" []]⟩

/-- The rewrite of `reorderDocument`: the query definition moved to the
front. -/
def reorderedDocument : Document :=
  ⟨[.operationDefinition "query" [], .fragmentDefinition "F" []]⟩

end ApolloDirectives

namespace ApolloScheduler

/-- Modelled from the spec: the `QueryScheduler` implementation
(`src/scheduler.ts`) is not among the provided source files, only its
tests are.  A polling query descriptor per the spec's
`PollingQueryDescriptor`: the poll interval may be absent, and must be
positive for registration to succeed.  The query document and variables
are payload irrelevant to the scheduling claims. -/
structure PollingQueryDescriptor where
  pollInterval : Option Int
  deriving Repr, DecidableEq

/-- Modelled from the spec: the scheduler's state.  `registered` are the
live registrations (QueryId with descriptor; one active timer each),
`inFlight` the InFlightSet, and `executionLog` the QueryIds of every
execution ever started, in start order. -/
structure SchedulerState where
  nextQueryId : Nat
  registered : List (Nat × PollingQueryDescriptor)
  inFlight : List Nat
  executionLog : List Nat
  deriving Repr, DecidableEq

/-- The scheduler's initial state: nothing registered, nothing in
flight, nothing executed. -/
def initialSchedulerState : SchedulerState :=
  { nextQueryId := 0, registered := [], inFlight := [], executionLog := [] }

/-- Modelled from the spec: `startPollingQuery(descriptor, onResult)`
"requires `descriptor.pollIntervalMillis` to be a positive value;
absence or non-positive value is an error"; on success it registers a
fresh QueryId with a recurring timer and returns immediately — no
execution is started at registration time. -/
def startPollingQuery (d : PollingQueryDescriptor) (st : SchedulerState) :
    Except String (Nat × SchedulerState) :=
  match d.pollInterval with
  | none => .error "Attempted to register a non-polling query with the scheduler."
  | some i =>
    if i ≤ 0 then .error "Attempted to register a non-polling query with the scheduler."
    else
      .ok (st.nextQueryId,
        { st with
          nextQueryId := st.nextQueryId + 1,
          registered := st.registered ++ [(st.nextQueryId, d)] })

/-- Modelled from the spec: one timer tick for a QueryId.  "If the
QueryId is currently present in the InFlightSet, skip this tick entirely
(no new execution, no error).  Otherwise, add the QueryId to the
InFlightSet" and start an execution.  A tick only fires for a live
registration (each registration owns its timer). -/
def tick (qid : Nat) (st : SchedulerState) : SchedulerState :=
  if qid ∈ st.registered.map Prod.fst then
    if qid ∈ st.inFlight then st
    else
      { st with
        inFlight := qid :: st.inFlight,
        executionLog := st.executionLog ++ [qid] }
  else st

/-- Modelled from the spec: completion (success or failure) of the
outstanding execution of a QueryId: "remove the QueryId from the
InFlightSet and deliver the outcome". -/
def completeExecution (qid : Nat) (st : SchedulerState) : SchedulerState :=
  { st with inFlight := st.inFlight.filter (· ≠ qid) }

/-- Modelled from the spec: `stopPollingQuery(queryId)` "cancels the
timer and removes all bookkeeping (in-flight entry, listener) for that
id; idempotent". -/
def stopPollingQuery (qid : Nat) (st : SchedulerState) : SchedulerState :=
  { st with
    registered := st.registered.filter (·.1 ≠ qid),
    inFlight := st.inFlight.filter (· ≠ qid) }

/-- An observable scheduler event: a registration attempt, a timer tick,
the completion of an execution, or a stop. -/
inductive SchedulerEvent where
  | startEvent (d : PollingQueryDescriptor)
  | tickEvent (qid : Nat)
  | completeEvent (qid : Nat)
  | stopEvent (qid : Nat)
  deriving Repr, DecidableEq

/-- Apply one event to the scheduler state.  A failed registration
throws to its caller and leaves the scheduler untouched. -/
def stepScheduler (st : SchedulerState) : SchedulerEvent → SchedulerState
  | .startEvent d =>
    match startPollingQuery d st with
    | .ok (_, st') => st'
    | .error _ => st
  | .tickEvent qid => tick qid st
  | .completeEvent qid => completeExecution qid st
  | .stopEvent qid => stopPollingQuery qid st

/-- Run a list of scheduler events from the initial state. -/
def runScheduler (events : List SchedulerEvent) : SchedulerState :=
  events.foldl stepScheduler initialSchedulerState

end ApolloScheduler

namespace ApolloDirectives

/-- A resolver's outcome is its keep/remove/throw decision applied to
the input selection: the decision depends only on the directive and the
variables, and a kept selection is returned unchanged. -/
theorem runResolver_keeps (r : DirectiveResolver) (sel : Selection)
    (vars : Variables) (d : Directive) :
    runResolver r sel vars d =
      Except.map (fun b => if b then some sel else none) (resolverKeeps r vars d) := by
  cases r with
  | skipIncludeResolver n =>
    obtain ⟨dname, dargs⟩ := d
    show skipIncludeDirectiveResolver n sel vars ⟨dname, dargs⟩ = _
    rcases dargs with _ | ⟨⟨aname, aval⟩, _ | ⟨b, l⟩⟩
    · rfl
    · by_cases hn : aname = some "if"
      · cases aval with
        | booleanValue b =>
          by_cases hs : n = "skip" <;> cases b <;>
            simp [skipIncludeDirectiveResolver, resolverKeeps, hn, hs, Except.map]
        | variableValue x =>
          cases hx : vars x with
          | none =>
            simp [skipIncludeDirectiveResolver, resolverKeeps, hn, hx, Except.map]
          | some b =>
            by_cases hs : n = "skip" <;> cases b <;>
              simp [skipIncludeDirectiveResolver, resolverKeeps, hn, hx, hs, Except.map]
        | otherValue =>
          simp [skipIncludeDirectiveResolver, resolverKeeps, hn, Except.map]
      · simp [skipIncludeDirectiveResolver, resolverKeeps, hn, Except.map]
    · rfl

/-- One directive-loop iteration, on a state whose `currSelection` is
the original selection and whose `newSelection` is either undefined or
that same selection, is the payload-free decision step applied to the
payload. -/
theorem processDirective_eq (rs : Resolvers) (vars : Variables) (sel : Selection)
    (d : Directive) (nk : Bool) (tbr : Option Bool) :
    processDirective rs vars sel
        ⟨if nk then some sel else none, sel, tbr⟩ d =
      Except.map
        (fun st : DecisionState =>
          (⟨if st.newKept then some sel else none, sel, st.toBeRemoved⟩ : RewriteState))
        (decideDirective rs vars ⟨nk, tbr⟩ d) := by
  cases hname : d.name with
  | none => simp [processDirective, decideDirective, hname, Except.map]
  | some nm =>
    by_cases h0 : nm = ""
    · simp [processDirective, decideDirective, hname, h0, Except.map]
    · cases hr : rs nm with
      | none => simp [processDirective, decideDirective, hname, h0, hr, Except.map]
      | some r =>
        cases hk : resolverKeeps r vars d with
        | error e =>
          simp [processDirective, decideDirective, hname, h0, hr,
            runResolver_keeps, hk, Except.map]
        | ok kept =>
          by_cases hsi : nm = "skip" ∨ nm = "include"
          · cases kept with
            | true =>
              simp [processDirective, decideDirective, hname, h0, hr,
                runResolver_keeps, hk, hsi, Except.map]
            | false =>
              by_cases htbr : tbr = none <;>
                simp [processDirective, decideDirective, hname, h0, hr,
                  runResolver_keeps, hk, hsi, htbr, Except.map]
          · cases kept <;>
              simp [processDirective, decideDirective, hname, h0, hr,
                runResolver_keeps, hk, hsi, Except.map]

/-- The whole directive loop is the payload-free decision fold applied
to the payload. -/
theorem foldlM_process_eq (rs : Resolvers) (vars : Variables) (sel : Selection)
    (ds : List Directive) (nk : Bool) (tbr : Option Bool) :
    ds.foldlM (processDirective rs vars sel)
        ⟨if nk then some sel else none, sel, tbr⟩ =
      Except.map
        (fun st : DecisionState =>
          (⟨if st.newKept then some sel else none, sel, st.toBeRemoved⟩ : RewriteState))
        (ds.foldlM (decideDirective rs vars) ⟨nk, tbr⟩) := by
  induction ds generalizing nk tbr with
  | nil => rfl
  | cons d ds ih =>
    rw [List.foldlM_cons, List.foldlM_cons, processDirective_eq]
    cases hd : decideDirective rs vars ⟨nk, tbr⟩ d with
    | error e => rfl
    | ok st' =>
      cases st' with
      | mk nk' tbr' =>
        show ds.foldlM (processDirective rs vars sel)
            ⟨if nk' then some sel else none, sel, tbr'⟩ = _
        rw [ih nk' tbr']
        rfl

/-- Characterization of the per-selection rewrite: the directive loop's
decision (a function of the directives alone) selects between the
recursion-and-keep branch, the keep-unchanged branch and removal. -/
theorem applyToSelection_eq (rs : Resolvers) (vars : Variables) (sel : Selection) :
    applyDirectivesToSelection rs vars sel =
      match selectionDecision rs vars sel.directives with
      | .error e => .error e
      | .ok st =>
        if st.newKept then Except.map some (rewriteChildren rs vars sel)
        else if st.toBeRemoved = some true then .ok none
        else .ok (some sel) := by
  have h : List.foldlM (processDirective rs vars sel)
      ⟨some sel, sel, none⟩ sel.directives =
      Except.map
        (fun st : DecisionState =>
          (⟨if st.newKept then some sel else none, sel, st.toBeRemoved⟩ : RewriteState))
        (selectionDecision rs vars sel.directives) :=
    foldlM_process_eq rs vars sel sel.directives true none
  cases sel with
  | fragmentSpread n ds =>
    rw [applyDirectivesToSelection, h]
    cases hd : selectionDecision rs vars (Selection.fragmentSpread n ds).directives with
    | error e => rfl
    | ok st =>
      obtain ⟨nk, tbr⟩ := st
      cases nk <;> simp [Except.map, rewriteChildren]
  | field n ds oss =>
    cases oss with
    | none =>
      rw [applyDirectivesToSelection, h]
      cases hd : selectionDecision rs vars (Selection.field n ds none).directives with
      | error e => rfl
      | ok st =>
        obtain ⟨nk, tbr⟩ := st
        cases nk <;> simp [Except.map, rewriteChildren]
    | some ss =>
      rw [applyDirectivesToSelection, h]
      cases hd : selectionDecision rs vars (Selection.field n ds (some ss)).directives with
      | error e => rfl
      | ok st =>
        obtain ⟨nk, tbr⟩ := st
        cases nk with
        | false => simp [Except.map]
        | true =>
          cases hss : applyDirectivesToSelections rs vars ss <;>
            simp [Except.map, rewriteChildren, applyDirectivesToSelectionSet, hss]
  | inlineFragment ds ss =>
    rw [applyDirectivesToSelection, h]
    cases hd : selectionDecision rs vars (Selection.inlineFragment ds ss).directives with
    | error e => rfl
    | ok st =>
      obtain ⟨nk, tbr⟩ := st
      cases nk with
      | false => simp [Except.map]
      | true =>
        cases hss : applyDirectivesToSelections rs vars ss <;>
          simp [Except.map, rewriteChildren, applyDirectivesToSelectionSet, hss]

/-- A kept selection's directives are untouched: the recursion step only
rewrites the nested selection set. -/
theorem rewriteChildren_directives (rs : Resolvers) (vars : Variables)
    (sel sel' : Selection) (h : rewriteChildren rs vars sel = .ok sel') :
    sel'.directives = sel.directives := by
  cases sel with
  | field n ds oss =>
    cases oss with
    | none =>
      simp only [rewriteChildren] at h
      cases h
      rfl
    | some ss =>
      simp only [rewriteChildren] at h
      cases hss : applyDirectivesToSelectionSet rs vars ss with
      | error e => rw [hss] at h; cases h
      | ok ss' => rw [hss] at h; cases h; rfl
  | inlineFragment ds ss =>
    simp only [rewriteChildren] at h
    cases hss : applyDirectivesToSelectionSet rs vars ss with
    | error e => rw [hss] at h; cases h
    | ok ss' => rw [hss] at h; cases h; rfl
  | fragmentSpread n ds =>
    simp only [rewriteChildren] at h
    cases h
    rfl

/-- The element lists produced by a successful `selections.map` pass have
the input's length. -/
theorem selections_ok_length (rs : Resolvers) (vars : Variables) :
    ∀ (sels : List Selection) (os : List (Option Selection)),
      applyDirectivesToSelections rs vars sels = .ok os → os.length = sels.length := by
  intro sels
  induction sels with
  | nil => intro os h; cases h; rfl
  | cons s rest ih =>
    intro os h
    rw [applyDirectivesToSelections] at h
    cases h1 : applyDirectivesToSelection rs vars s with
    | error e => rw [h1] at h; cases h
    | ok o =>
      rw [h1] at h
      cases h2 : applyDirectivesToSelections rs vars rest with
      | error e => rw [h2] at h; cases h
      | ok os' =>
        rw [h2] at h
        cases h
        simp [ih os' h2]

/-- A successful `selections.map` pass is pointwise: the entry at index
`i` of the produced list is the rewrite of the input selection at `i`. -/
theorem selections_ok_get (rs : Resolvers) (vars : Variables) :
    ∀ (sels : List Selection) (os : List (Option Selection)),
      applyDirectivesToSelections rs vars sels = .ok os →
      ∀ (i : Nat) (hi : i < os.length) (hi' : i < sels.length),
        applyDirectivesToSelection rs vars (sels.get ⟨i, hi'⟩) = .ok (os.get ⟨i, hi⟩) := by
  intro sels
  induction sels with
  | nil => intro os h i hi hi'; simp at hi'
  | cons s rest ih =>
    intro os h i hi hi'
    rw [applyDirectivesToSelections] at h
    cases h1 : applyDirectivesToSelection rs vars s with
    | error e => rw [h1] at h; cases h
    | ok o =>
      rw [h1] at h
      cases h2 : applyDirectivesToSelections rs vars rest with
      | error e => rw [h2] at h; cases h
      | ok os' =>
        rw [h2] at h
        cases h
        cases i with
        | zero => simpa using h1
        | succ j =>
          exact ih os' h2 j (Nat.lt_of_succ_lt_succ hi) (Nat.lt_of_succ_lt_succ hi')

/-- Every survivor of a successful rewrite pass is the kept rewrite of
some input selection. -/
theorem survivor_from_input (rs : Resolvers) (vars : Variables) :
    ∀ (sels : List Selection) (os : List (Option Selection)),
      applyDirectivesToSelections rs vars sels = .ok os →
      ∀ s' ∈ os.filterMap id, ∃ s ∈ sels,
        applyDirectivesToSelection rs vars s = .ok (some s') := by
  intro sels
  induction sels with
  | nil => intro os h; cases h; intro s' hs'; simp at hs'
  | cons s rest ih =>
    intro os h s' hs'
    rw [applyDirectivesToSelections] at h
    cases h1 : applyDirectivesToSelection rs vars s with
    | error e => rw [h1] at h; cases h
    | ok o =>
      rw [h1] at h
      cases h2 : applyDirectivesToSelections rs vars rest with
      | error e => rw [h2] at h; cases h
      | ok os' =>
        rw [h2] at h
        cases h
        cases o with
        | none =>
          obtain ⟨t, ht, h'⟩ := ih os' h2 s' (by simpa using hs')
          exact ⟨t, List.mem_cons_of_mem s ht, h'⟩
        | some a =>
          simp only [List.filterMap_cons, id] at hs'
          rcases List.mem_cons.mp hs' with h' | h'
          · exact ⟨s, List.mem_cons_self s rest, h' ▸ h1⟩
          · obtain ⟨t, ht, h''⟩ := ih os' h2 s' h'
            exact ⟨t, List.mem_cons_of_mem s ht, h''⟩

/-- A list of selections that are each individually kept unchanged by
the rewrite is mapped to itself. -/
theorem selections_fixed (rs : Resolvers) (vars : Variables) :
    ∀ (kept : List Selection),
      (∀ s ∈ kept, applyDirectivesToSelection rs vars s = .ok (some s)) →
      applyDirectivesToSelectionSet rs vars kept = .ok kept := by
  intro kept
  induction kept with
  | nil => intro _; rfl
  | cons s rest ih =>
    intro hfix
    have h1 : applyDirectivesToSelection rs vars s = .ok (some s) :=
      hfix s (List.mem_cons_self s rest)
    have h2 := ih fun t ht => hfix t (List.mem_cons_of_mem s ht)
    simp only [applyDirectivesToSelectionSet] at h2 ⊢
    cases hrest : applyDirectivesToSelections rs vars rest with
    | error e => rw [hrest] at h2; cases h2
    | ok os' =>
      rw [hrest] at h2
      rw [applyDirectivesToSelections, h1, hrest]
      simp only [List.filterMap_cons, id] at h2 ⊢
      cases h2
      simp

/-- Idempotence of the rewrite, by strong induction on the size of the
selection tree: a kept selection is kept unchanged by a second pass, and
a rewritten selection set is a fixed point of the rewrite. -/
theorem rewrite_idem_aux (rs : Resolvers) (vars : Variables) (N : Nat) :
    (∀ sel : Selection, sizeOf sel = N → ∀ s',
        applyDirectivesToSelection rs vars sel = .ok (some s') →
        applyDirectivesToSelection rs vars s' = .ok (some s')) ∧
    (∀ sels : List Selection, sizeOf sels = N → ∀ out,
        applyDirectivesToSelectionSet rs vars sels = .ok out →
        applyDirectivesToSelectionSet rs vars out = .ok out) := by
  induction N using Nat.strong_induction_on with
  | _ N ih =>
    constructor
    · intro sel hN s' happ
      rw [applyToSelection_eq] at happ
      cases hd : selectionDecision rs vars sel.directives with
      | error e => rw [hd] at happ; cases happ
      | ok st =>
        rw [hd] at happ
        obtain ⟨nk, tbr⟩ := st
        cases nk with
        | false =>
          simp only at happ
          by_cases htbr : tbr = some true
          · rw [if_pos htbr] at happ; cases happ
          · rw [if_neg htbr] at happ
            cases happ
            rw [applyToSelection_eq, hd]
            simp [htbr]
        | true =>
          simp only [if_pos] at happ
          cases hch : rewriteChildren rs vars sel with
          | error e => rw [hch] at happ; cases happ
          | ok selC =>
            rw [hch] at happ
            cases happ
            have hdirs : s'.directives = sel.directives :=
              rewriteChildren_directives rs vars sel s' hch
            rw [applyToSelection_eq, hdirs, hd]
            simp only [if_pos]
            have hch' : rewriteChildren rs vars s' = .ok s' := by
              cases sel with
              | field n ds oss =>
                cases oss with
                | none =>
                  simp only [rewriteChildren] at hch
                  cases hch
                  rfl
                | some ss =>
                  simp only [rewriteChildren] at hch
                  cases hss : applyDirectivesToSelectionSet rs vars ss with
                  | error e => rw [hss] at hch; cases hch
                  | ok ss' =>
                    rw [hss] at hch
                    cases hch
                    have hlt : sizeOf ss < N := by
                      subst hN
                      simp only [Selection.field.sizeOf_spec, Option.some.sizeOf_spec]
                      omega
                    have hidem := (ih (sizeOf ss) hlt).2 ss rfl ss' hss
                    simp only [rewriteChildren, hidem]
              | inlineFragment ds ss =>
                simp only [rewriteChildren] at hch
                cases hss : applyDirectivesToSelectionSet rs vars ss with
                | error e => rw [hss] at hch; cases hch
                | ok ss' =>
                  rw [hss] at hch
                  cases hch
                  have hlt : sizeOf ss < N := by
                    subst hN
                    simp only [Selection.inlineFragment.sizeOf_spec]
                    omega
                  have hidem := (ih (sizeOf ss) hlt).2 ss rfl ss' hss
                  simp only [rewriteChildren, hidem]
              | fragmentSpread n ds =>
                simp only [rewriteChildren] at hch
                cases hch
                rfl
            rw [hch']
            rfl
    · intro sels hN out hout
      simp only [applyDirectivesToSelectionSet] at hout
      cases hos : applyDirectivesToSelections rs vars sels with
      | error e => rw [hos] at hout; cases hout
      | ok os =>
        rw [hos] at hout
        cases hout
        apply selections_fixed
        intro s' hs'
        obtain ⟨s, hsmem, hsrw⟩ := survivor_from_input rs vars sels os hos s' hs'
        have hlt : sizeOf s < N := hN ▸ List.sizeOf_lt_of_mem hsmem
        exact (ih (sizeOf s) hlt).1 s rfl s' hsrw

/-- The `map some` image of the survivors of a rewrite pass is a sublist
of the per-selection results: `filter(identity)` only deletes entries. -/
theorem filterMap_id_map_some_sublist {α : Type} :
    ∀ (os : List (Option α)), ((os.filterMap id).map some).Sublist os := by
  intro os
  induction os with
  | nil => simp
  | cons o rest ih =>
    cases o with
    | none =>
      simp only [List.filterMap_cons, id]
      exact ih.cons none
    | some a =>
      simp only [List.filterMap_cons, id, List.map_cons]
      exact ih.cons₂ (some a)

/-- A definition recognized as the query definition is a query operation
definition. -/
theorem isQueryDefinition_elim (d : Definition)
    (h : d.isQueryDefinition = true) :
    ∃ ss, d = .operationDefinition "query" ss := by
  cases d with
  | operationDefinition op ss =>
    simp only [Definition.isQueryDefinition, decide_eq_true_eq] at h
    exact ⟨ss, by rw [h]⟩
  | fragmentDefinition n ss => simp [Definition.isQueryDefinition] at h
  | otherDefinition => simp [Definition.isQueryDefinition] at h

/-- Replacing a definition's selection set does not change its kind. -/
theorem isFragment_withSelectionSet (d : Definition) (ss : List Selection) :
    (d.withSelectionSet ss).isFragmentDefinition = d.isFragmentDefinition := by
  cases d <;> rfl

/-- A successful fragment rewrite is pointwise: it has the input's
length, and the definition at index `i` of the output is the input's
`i`-th fragment with its selection set rewritten. -/
theorem rewriteFragmentDefs_pointwise (rs : Resolvers) (vars : Variables) :
    ∀ (l l' : List Definition), rewriteFragmentDefs rs vars l = .ok l' →
      l'.length = l.length ∧
      ∀ (i : Nat) (hi : i < l.length) (hi' : i < l'.length),
        ∃ ss, applyDirectivesToSelectionSet rs vars (l.get ⟨i, hi⟩).selectionSet = .ok ss ∧
          l'.get ⟨i, hi'⟩ = (l.get ⟨i, hi⟩).withSelectionSet ss := by
  intro l
  induction l with
  | nil =>
    intro l' h
    cases h
    exact ⟨rfl, by intro i hi; simp at hi⟩
  | cons fd rest ih =>
    intro l' h
    rw [rewriteFragmentDefs] at h
    cases h1 : applyDirectivesToSelectionSet rs vars fd.selectionSet with
    | error e => rw [h1] at h; cases h
    | ok ss =>
      rw [h1] at h
      cases h2 : rewriteFragmentDefs rs vars rest with
      | error e => rw [h2] at h; cases h
      | ok rest' =>
        rw [h2] at h
        cases h
        obtain ⟨hlen, hpt⟩ := ih rest' h2
        refine ⟨by simp [hlen], ?_⟩
        intro i hi hi'
        cases i with
        | zero => exact ⟨ss, h1, rfl⟩
        | succ j =>
          exact hpt j (Nat.lt_of_succ_lt_succ hi) (Nat.lt_of_succ_lt_succ hi')

/-- Every output definition of a successful fragment rewrite is an input
definition with its selection set replaced. -/
theorem rewriteFragmentDefs_mem (rs : Resolvers) (vars : Variables) :
    ∀ (l l' : List Definition), rewriteFragmentDefs rs vars l = .ok l' →
      ∀ d' ∈ l', ∃ d ∈ l, ∃ ss, d' = d.withSelectionSet ss := by
  intro l
  induction l with
  | nil =>
    intro l' h
    cases h
    intro d' hd'
    simp at hd'
  | cons fd rest ih =>
    intro l' h d' hd'
    rw [rewriteFragmentDefs] at h
    cases h1 : applyDirectivesToSelectionSet rs vars fd.selectionSet with
    | error e => rw [h1] at h; cases h
    | ok ss =>
      rw [h1] at h
      cases h2 : rewriteFragmentDefs rs vars rest with
      | error e => rw [h2] at h; cases h
      | ok rest' =>
        rw [h2] at h
        cases h
        rcases List.mem_cons.mp hd' with h' | h'
        · exact ⟨fd, List.mem_cons_self fd rest, ss, h'⟩
        · obtain ⟨d, hdmem, ss', h''⟩ := ih rest' h2 d' h'
          exact ⟨d, List.mem_cons_of_mem fd hdmem, ss', h''⟩

/-- A rewritten fragment list is a fixed point of the fragment rewrite. -/
theorem rewriteFragmentDefs_idem (rs : Resolvers) (vars : Variables) :
    ∀ (l l' : List Definition), rewriteFragmentDefs rs vars l = .ok l' →
      rewriteFragmentDefs rs vars l' = .ok l' := by
  intro l
  induction l with
  | nil => intro l' h; cases h; rfl
  | cons fd rest ih =>
    intro l' h
    rw [rewriteFragmentDefs] at h
    cases h1 : applyDirectivesToSelectionSet rs vars fd.selectionSet with
    | error e => rw [h1] at h; cases h
    | ok ss =>
      rw [h1] at h
      cases h2 : rewriteFragmentDefs rs vars rest with
      | error e => rw [h2] at h; cases h
      | ok rest' =>
        rw [h2] at h
        cases h
        have hrest := ih rest' h2
        cases fd with
        | operationDefinition op ss0 =>
          have hidem : applyDirectivesToSelectionSet rs vars ss = .ok ss :=
            (rewrite_idem_aux rs vars (sizeOf ss0)).2 ss0 rfl ss h1
          rw [rewriteFragmentDefs]
          simp only [Definition.withSelectionSet, Definition.selectionSet, hidem, hrest]
        | fragmentDefinition n ss0 =>
          have hidem : applyDirectivesToSelectionSet rs vars ss = .ok ss :=
            (rewrite_idem_aux rs vars (sizeOf ss0)).2 ss0 rfl ss h1
          rw [rewriteFragmentDefs]
          simp only [Definition.withSelectionSet, Definition.selectionSet, hidem, hrest]
        | otherDefinition =>
          have hss : ss = [] := by
            have : applyDirectivesToSelectionSet rs vars
                (Definition.otherDefinition.selectionSet) = .ok [] := rfl
            rw [this] at h1
            cases h1
            rfl
          subst hss
          rw [rewriteFragmentDefs]
          simp only [Definition.withSelectionSet, Definition.selectionSet]
          have hnil : applyDirectivesToSelectionSet rs vars ([] : List Selection) = .ok [] := rfl
          simp only [hnil, hrest]

/-- Decomposition of a successful `applyDirectives` call into its query
rewrite and its fragment rewrite. -/
theorem applyDirectives_ok_elim (doc : Document) (vars : Variables)
    (rs : Resolvers) (out : Document)
    (h : applyDirectives doc vars rs = .ok out) :
    ∃ qd newSS newFrags,
      getQueryDefinition doc = .ok qd ∧
      applyDirectivesToSelectionSet rs vars qd.selectionSet = .ok newSS ∧
      rewriteFragmentDefs rs vars (getFragmentDefinitions doc) = .ok newFrags ∧
      out = ⟨qd.withSelectionSet newSS :: newFrags⟩ := by
  simp only [applyDirectives, cloneDeep] at h
  split at h
  · cases h
  · rename_i qd hq
    split at h
    · cases h
    · rename_i newSS hqs
      split at h
      · cases h
      · rename_i newFrags hf
        cases h
        exact ⟨qd, newSS, newFrags, hq, hqs, hf, rfl⟩

/-- Applying the directive rewrite a second time, with the same
variables and resolvers, reproduces the once-rewritten document. -/
theorem applyDirectives_idem_aux (doc : Document) (vars : Variables)
    (rs : Resolvers) (out : Document)
    (h : applyDirectives doc vars rs = .ok out) :
    applyDirectives out vars rs = .ok out := by
  obtain ⟨qd, newSS, newFrags, hq, hqs, hf, hout⟩ :=
    applyDirectives_ok_elim doc vars rs out h
  have hqq : qd.isQueryDefinition = true := by
    simp only [getQueryDefinition] at hq
    split at hq
    · rename_i d hfind
      cases hq
      exact List.find?_some hfind
    · cases hq
  obtain ⟨ss0, rfl⟩ := isQueryDefinition_elim qd hqq
  have hfragsMem : ∀ d' ∈ newFrags, d'.isFragmentDefinition = true := by
    intro d' hd'
    obtain ⟨d, hdmem, ss, rfl⟩ :=
      rewriteFragmentDefs_mem rs vars (getFragmentDefinitions doc) newFrags hf d' hd'
    rw [isFragment_withSelectionSet]
    exact (List.mem_filter.mp hdmem).2
  have hq1 : (Definition.operationDefinition "query" ss0).withSelectionSet newSS
      = Definition.operationDefinition "query" newSS := rfl
  have hqOut : getQueryDefinition out
      = .ok (Definition.operationDefinition "query" newSS) := by
    rw [hout, hq1]
    simp only [getQueryDefinition]
    rw [List.find?_cons_of_pos _ (by rfl)]
  have hfOut : getFragmentDefinitions out = newFrags := by
    simp only [hout, hq1, getFragmentDefinitions]
    rw [List.filter_cons_of_neg (by simp [Definition.isFragmentDefinition])]
    exact List.filter_eq_self.mpr hfragsMem
  have hqsIdem : applyDirectivesToSelectionSet rs vars newSS = .ok newSS :=
    (rewrite_idem_aux rs vars (sizeOf ss0)).2 ss0 rfl newSS hqs
  have hfIdem : rewriteFragmentDefs rs vars newFrags = .ok newFrags :=
    rewriteFragmentDefs_idem rs vars (getFragmentDefinitions doc) newFrags hf
  simp only [applyDirectives, cloneDeep, hqOut, hfOut, Definition.selectionSet,
    hqsIdem, hfIdem, Definition.withSelectionSet]
  rw [hout, hq1]

end ApolloDirectives

namespace ApolloScheduler

/-- One scheduler step never duplicates an in-flight entry. -/
theorem step_preserves_nodup (st : SchedulerState) (e : SchedulerEvent)
    (h : st.inFlight.Nodup) : (stepScheduler st e).inFlight.Nodup := by
  cases e with
  | startEvent d =>
    rw [stepScheduler]
    cases hs : startPollingQuery d st with
    | error e => exact h
    | ok p =>
      obtain ⟨qid, st'⟩ := p
      show st'.inFlight.Nodup
      simp only [startPollingQuery] at hs
      split at hs
      · cases hs
      · split at hs
        · cases hs
        · cases hs
          exact h
  | tickEvent qid =>
    rw [stepScheduler, tick]
    by_cases hreg : qid ∈ st.registered.map Prod.fst
    · rw [if_pos hreg]
      by_cases hin : qid ∈ st.inFlight
      · rw [if_pos hin]; exact h
      · rw [if_neg hin]
        exact List.Nodup.cons hin h
    · rw [if_neg hreg]; exact h
  | completeEvent qid =>
    exact List.Nodup.filter _ h
  | stopEvent qid =>
    exact List.Nodup.filter _ h

/-- Every reachable scheduler state has a duplicate-free InFlightSet. -/
theorem foldl_preserves_nodup :
    ∀ (events : List SchedulerEvent) (st : SchedulerState),
      st.inFlight.Nodup → (events.foldl stepScheduler st).inFlight.Nodup := by
  intro events
  induction events with
  | nil => intro st h; exact h
  | cons e rest ih =>
    intro st h
    exact ih (stepScheduler st e) (step_preserves_nodup st e h)

/-- A tick for a QueryId whose execution is still outstanding changes
nothing: no new execution, no error. -/
theorem tick_inflight_noop (qid : Nat) (st : SchedulerState)
    (h : qid ∈ st.inFlight) : tick qid st = st := by
  rw [tick]
  by_cases hreg : qid ∈ st.registered.map Prod.fst
  · rw [if_pos hreg, if_pos h]
  · rw [if_neg hreg]

end ApolloScheduler

namespace ApolloDirectives

/-- Tagging an `Except` payload with `some` never produces the removal
sentinel. -/
theorem map_some_ne_ok_none {ε α : Type} (e : Except ε α) :
    Except.map some e ≠ .ok none := by
  cases e <;> simp [Except.map]

/-- Allocation leaves every existing document object unchanged. -/
theorem readRef_append_preserved (σ : Store) (d : Document) (r : Nat)
    (h : r < σ.docs.length) : readRef ⟨σ.docs ++ [d]⟩ r = readRef σ r := by
  simp [readRef, List.getD_eq_getElem?_getD, List.getElem?_append_left h]

/-- A freshly allocated document object holds the allocated value. -/
theorem readRef_append_last (σ : Store) (d : Document) :
    readRef ⟨σ.docs ++ [d]⟩ σ.docs.length = d := by
  simp [readRef, List.getD_eq_getElem?_getD, List.getElem?_concat_length]

/-- Writing one document object leaves every other object unchanged. -/
theorem readRef_write_ne (σ : Store) (w r : Nat) (d : Document)
    (h : w ≠ r) : readRef (writeRef σ w d) r = readRef σ r := by
  simp [readRef, writeRef, List.getD_eq_getElem?_getD, List.getElem?_set_ne h]

/-- Reading back a written document object yields the written value. -/
theorem readRef_write_self (σ : Store) (w : Nat) (d : Document)
    (h : w < σ.docs.length) : readRef (writeRef σ w d) w = d := by
  simp [readRef, writeRef, List.getD_eq_getElem?_getD, List.getElem?_set_self h]

/-- Writing never changes the set of allocated references. -/
theorem writeRef_docs_length (σ : Store) (w : Nat) (d : Document) :
    (writeRef σ w d).docs.length = σ.docs.length := by
  simp [writeRef]

/-- A single selection whose rewrite does not resolve to the removal
sentinel survives into the rewritten singleton selection set. -/
theorem single_kept_of_not_removed (rs : Resolvers) (vars : Variables)
    (sel : Selection) (out : List Selection)
    (h : applyDirectivesToSelectionSet rs vars [sel] = .ok out)
    (hne : applyDirectivesToSelection rs vars sel ≠ .ok none) :
    ∃ s', out = [s'] := by
  cases h1 : applyDirectivesToSelection rs vars sel with
  | error e =>
    simp only [applyDirectivesToSelectionSet, applyDirectivesToSelections, h1] at h
    cases h
  | ok o =>
    cases o with
    | none => exact absurd h1 hne
    | some s' =>
      simp only [applyDirectivesToSelectionSet, applyDirectivesToSelections, h1,
        List.filterMap_cons, List.filterMap_nil, id] at h
      cases h
      exact ⟨s', rfl⟩

end ApolloDirectives

namespace ApolloDirectives

/-- C1 (counterexample): a field annotated with both `@skip(if: false)`
and `@include(if: false)` is kept by the rewrite, not removed as the
claim states: `@skip(if: false)` resolves to "keep", and a keep by
either directive of the pair overrides the other's removal. -/
theorem claim1_counterexample :
    applyDirectivesToSelectionSet standardResolvers emptyVars [bothFalseSelection] =
      .ok [bothFalseSelection] ∧
    applyDirectivesToSelectionSet standardResolvers emptyVars [bothFalseSelection] ≠
      .ok ([] : List Selection) := by
  constructor
  · rfl
  · intro hcontra
    have h1 : applyDirectivesToSelectionSet standardResolvers emptyVars [bothFalseSelection] =
        .ok [bothFalseSelection] := rfl
    rw [h1] at hcontra
    simp at hcontra

/-- C1 (amended): a selection carrying literal `@skip(if: b)` and
`@include(if: b)` directives, in either order and with the two
conditions equal, is kept by the rewrite whenever the rewrite of its
singleton selection set succeeds — for `b = true` because the include
evaluation keeps it, and for `b = false` because the skip evaluation
keeps it and a keep overrides the other directive's removal. -/
theorem claim1_conflict_rule_kept (sel : Selection) (b : Bool) (vars : Variables)
    (out : List Selection)
    (hds : sel.directives = [skipIfDirective b, includeIfDirective b] ∨
      sel.directives = [includeIfDirective b, skipIfDirective b])
    (h : applyDirectivesToSelectionSet standardResolvers vars [sel] = .ok out) :
    ∃ s', out = [s'] := by
  apply single_kept_of_not_removed standardResolvers vars sel out h
  have hsel := applyToSelection_eq standardResolvers vars sel
  rcases hds with hds | hds <;> cases b
  · have hd : selectionDecision standardResolvers vars sel.directives
        = .ok ⟨false, some false⟩ := by rw [hds]; rfl
    simp only [hd] at hsel
    rw [hsel]
    simp
  · have hd : selectionDecision standardResolvers vars sel.directives
        = .ok ⟨true, some false⟩ := by rw [hds]; rfl
    simp only [hd] at hsel
    rw [hsel]
    exact map_some_ne_ok_none _
  · have hd : selectionDecision standardResolvers vars sel.directives
        = .ok ⟨true, some false⟩ := by rw [hds]; rfl
    simp only [hd] at hsel
    rw [hsel]
    exact map_some_ne_ok_none _
  · have hd : selectionDecision standardResolvers vars sel.directives
        = .ok ⟨false, some false⟩ := by rw [hds]; rfl
    simp only [hd] at hsel
    rw [hsel]
    simp

/-- Witness for C1: the rewrite of a field annotated
`@skip(if: true) @include(if: true)` keeps it. -/
theorem claim1_witness :
    ∃ s', [Selection.field "a" [skipIfDirective true, includeIfDirective true] none] = [s'] :=
  claim1_conflict_rule_kept
    (.field "a" [skipIfDirective true, includeIfDirective true] none) true emptyVars
    [Selection.field "a" [skipIfDirective true, includeIfDirective true] none]
    (Or.inl rfl) rfl

/-- C2 (counterexample): a selection annotated with the unregistered
directive name `foo` makes the rewrite throw (the source indexes the
registry and calls the absent resolver), instead of passing the
selection through unchanged without error. -/
theorem claim2_counterexample :
    applyDirectivesToSelectionSet standardResolvers emptyVars [unknownDirectiveSelection] =
      .error "TypeError: directiveResolver is not a function" ∧
    applyDirectivesToSelectionSet standardResolvers emptyVars [unknownDirectiveSelection] ≠
      .ok [unknownDirectiveSelection] := by
  constructor
  · rfl
  · intro hcontra
    have h1 : applyDirectivesToSelectionSet standardResolvers emptyVars
        [unknownDirectiveSelection] =
        .error "TypeError: directiveResolver is not a function" := rfl
    rw [h1] at hcontra
    cases hcontra

/-- C2 (amended): a selection whose directive's (non-empty) name has no
entry in the supplied registry makes the per-selection rewrite throw a
TypeError — the source looks up the resolver and invokes it without an
existence check — rather than returning the selection unchanged. -/
theorem claim2_unknown_directive_errors (rs : Resolvers) (vars : Variables)
    (sel : Selection) (nm : String) (args : List Argument)
    (hds : sel.directives = [⟨some nm, args⟩])
    (h0 : nm ≠ "") (hr : rs nm = none) :
    applyDirectivesToSelection rs vars sel =
      .error "TypeError: directiveResolver is not a function" := by
  have hd : selectionDecision rs vars sel.directives =
      .error "TypeError: directiveResolver is not a function" := by
    rw [hds]
    simp [selectionDecision, decideDirective, h0, hr, Bind.bind, Except.bind]
  rw [applyToSelection_eq, hd]

/-- Witness for C2: the `foo`-annotated field makes the rewrite throw. -/
theorem claim2_witness :
    applyDirectivesToSelection standardResolvers emptyVars unknownDirectiveSelection =
      .error "TypeError: directiveResolver is not a function" :=
  claim2_unknown_directive_errors standardResolvers emptyVars unknownDirectiveSelection
    "foo" [] rfl (by decide) rfl

/-- C3 (counterexample): a field annotated
`@include(if: true) @skip(if: true)` (kept by the conflict-override
rule) is returned with its nested selection set untouched: the nested
field `b`, annotated `@include(if: false)`, is still present, although
rewriting the nested set would remove it (second conjunct). -/
theorem claim3_counterexample :
    applyDirectivesToSelectionSet standardResolvers emptyVars [overrideKeptSelection] =
      .ok [overrideKeptSelection] ∧
    applyDirectivesToSelectionSet standardResolvers emptyVars
      [Selection.field "b" [includeIfDirective false] none] = .ok [] :=
  ⟨rfl, rfl⟩

/-- C3 (amended): the rewrite recurses into a kept selection's nested
selection set exactly when the directive loop ends with `newSelection`
defined (the last skip/include evaluation kept it); a selection kept by
the conflict-override rule — final evaluation removed but a prior keep
recorded — is returned without recursing into its children. -/
theorem claim3_recursion_characterization (rs : Resolvers) (vars : Variables)
    (sel : Selection) (st : DecisionState)
    (hd : selectionDecision rs vars sel.directives = .ok st) :
    (st.newKept = true →
      applyDirectivesToSelection rs vars sel =
        Except.map some (rewriteChildren rs vars sel)) ∧
    (st.newKept = false → st.toBeRemoved ≠ some true →
      applyDirectivesToSelection rs vars sel = .ok (some sel)) := by
  constructor
  · intro hk
    rw [applyToSelection_eq, hd]
    simp [hk]
  · intro hk htbr
    rw [applyToSelection_eq, hd]
    simp [hk, htbr]

/-- Witness for C3: the override-kept field is returned unchanged,
nested selection set and all. -/
theorem claim3_witness :
    applyDirectivesToSelection standardResolvers emptyVars overrideKeptSelection =
      .ok (some overrideKeptSelection) :=
  (claim3_recursion_characterization standardResolvers emptyVars overrideKeptSelection
    ⟨false, some false⟩ rfl).2 rfl (by simp)

/-- C5: the selections that survive directive application appear in the
rewritten selection set in the same relative order as in the input:
there is a strictly monotone index map sending each output position to
the input selection whose kept rewrite it carries. -/
theorem claim5_order_preserved (rs : Resolvers) (vars : Variables)
    (sels out : List Selection)
    (h : applyDirectivesToSelectionSet rs vars sels = .ok out) :
    ∃ f : Fin out.length → Fin sels.length, StrictMono f ∧
      ∀ k : Fin out.length,
        applyDirectivesToSelection rs vars (sels.get (f k)) = .ok (some (out.get k)) := by
  simp only [applyDirectivesToSelectionSet] at h
  split at h
  · cases h
  · rename_i os hos
    cases h
    have hlen : os.length = sels.length := selections_ok_length rs vars sels os hos
    obtain ⟨f0, hf0⟩ :=
      List.sublist_iff_exists_fin_orderEmbedding_get_eq.mp
        (filterMap_id_map_some_sublist os)
    have hml : ((os.filterMap id).map some).length = (os.filterMap id).length :=
      List.length_map _ _
    refine ⟨fun k => ⟨(f0 (Fin.cast hml.symm k)).val, hlen ▸ (f0 _).isLt⟩, ?_, ?_⟩
    · intro a b hab
      have hcast : (Fin.cast hml.symm a) < (Fin.cast hml.symm b) := by
        rw [Fin.lt_def, Fin.coe_cast, Fin.coe_cast]
        exact Fin.lt_def.mp hab
      exact f0.strictMono hcast
    · intro k
      have hi : (f0 (Fin.cast hml.symm k)).val < os.length := (f0 _).isLt
      have hi' : (f0 (Fin.cast hml.symm k)).val < sels.length := hlen ▸ hi
      have hpt := selections_ok_get rs vars sels os hos
        (f0 (Fin.cast hml.symm k)).val hi hi'
      show applyDirectivesToSelection rs vars
          (sels.get ⟨(f0 (Fin.cast hml.symm k)).val, hi'⟩) = _
      rw [hpt]
      have hget := hf0 (Fin.cast hml.symm k)
      show (Except.ok (os.get (f0 (Fin.cast hml.symm k))) :
        Except String (Option Selection)) = _
      rw [← hget, List.get_map]
      rfl

/-- Witness for C5: rewriting a two-field set whose first field is
removed by `@include(if: false)` yields the second field, order map
included. -/
theorem claim5_witness :
    ∃ f : Fin ([Selection.field "b" ([] : List Directive) none].length) →
        Fin ([Selection.field "a" [includeIfDirective false] none,
              Selection.field "b" ([] : List Directive) none].length),
      StrictMono f ∧
      ∀ k, applyDirectivesToSelection standardResolvers emptyVars
          ([Selection.field "a" [includeIfDirective false] none,
            Selection.field "b" ([] : List Directive) none].get (f k)) =
        .ok (some ([Selection.field "b" ([] : List Directive) none].get k)) :=
  claim5_order_preserved standardResolvers emptyVars
    [Selection.field "a" [includeIfDirective false] none,
     Selection.field "b" ([] : List Directive) none]
    [Selection.field "b" ([] : List Directive) none] rfl

/-- C6: `applyDirectives` never mutates the caller-supplied document.
In the store-threaded embedding every write of the source goes through
`writeRef` aimed at the reference `cloneDeep` freshly allocated, so the
caller's reference dereferences to the same document after the call —
on the normal path and on every throwing path (second conjunct: the
call returns or throws exactly as the pure rewrite does) — while the
clone's reference does change, ending at the rewritten document (third
conjunct). -/
theorem claim6_caller_document_untouched (rs : Resolvers) (vars : Variables)
    (callerRef : Nat) (σ : Store) (h : callerRef < σ.docs.length) :
    readRef (applyDirectivesProg rs vars callerRef σ).2 callerRef
      = readRef σ callerRef ∧
    (applyDirectivesProg rs vars callerRef σ).1 =
      Except.map (fun _ => σ.docs.length)
        (applyDirectives (readRef σ callerRef) vars rs) ∧
    ∀ out, applyDirectives (readRef σ callerRef) vars rs = .ok out →
      readRef (applyDirectivesProg rs vars callerRef σ).2 σ.docs.length = out := by
  have hread1 : readRef ⟨σ.docs ++ [readRef σ callerRef]⟩ σ.docs.length
      = readRef σ callerRef := readRef_append_last σ _
  have hkeep1 : readRef ⟨σ.docs ++ [readRef σ callerRef]⟩ callerRef
      = readRef σ callerRef := readRef_append_preserved σ _ callerRef h
  have hne : σ.docs.length ≠ callerRef := (Nat.ne_of_lt h).symm
  cases hq : getQueryDefinition (readRef σ callerRef) with
  | error e =>
    have hpure : applyDirectives (readRef σ callerRef) vars rs = .error e := by
      simp only [applyDirectives, cloneDeep, hq]
    refine ⟨?_, ?_, ?_⟩
    · simp only [applyDirectivesProg, allocRef, cloneDeep, hread1, hq]
      exact hkeep1
    · simp only [applyDirectivesProg, allocRef, cloneDeep, hread1, hq, hpure,
        Except.map]
    · intro out hout
      rw [hpure] at hout
      cases hout
  | ok qd =>
    cases hqs : applyDirectivesToSelectionSet rs vars qd.selectionSet with
    | error e =>
      have hpure : applyDirectives (readRef σ callerRef) vars rs = .error e := by
        simp only [applyDirectives, cloneDeep, hq, hqs]
      refine ⟨?_, ?_, ?_⟩
      · simp only [applyDirectivesProg, allocRef, cloneDeep, hread1, hq, hqs]
        exact hkeep1
      · simp only [applyDirectivesProg, allocRef, cloneDeep, hread1, hq, hqs,
          hpure, Except.map]
      · intro out hout
        rw [hpure] at hout
        cases hout
    | ok newSS =>
      cases hf : rewriteFragmentDefs rs vars
          (getFragmentDefinitions (readRef σ callerRef)) with
      | error e =>
        have hpure : applyDirectives (readRef σ callerRef) vars rs = .error e := by
          simp only [applyDirectives, cloneDeep, hq, hqs, hf]
        refine ⟨?_, ?_, ?_⟩
        · simp only [applyDirectivesProg, allocRef, cloneDeep, hread1, hq, hqs, hf]
          rw [readRef_write_ne _ _ _ _ hne]
          exact hkeep1
        · simp only [applyDirectivesProg, allocRef, cloneDeep, hread1, hq, hqs,
            hf, hpure, Except.map]
        · intro out hout
          rw [hpure] at hout
          cases hout
      | ok newFrags =>
        have hpure : applyDirectives (readRef σ callerRef) vars rs =
            .ok ⟨qd.withSelectionSet newSS :: newFrags⟩ := by
          simp only [applyDirectives, cloneDeep, hq, hqs, hf]
        refine ⟨?_, ?_, ?_⟩
        · simp only [applyDirectivesProg, allocRef, cloneDeep, hread1, hq, hqs, hf]
          rw [readRef_write_ne _ _ _ _ hne, readRef_write_ne _ _ _ _ hne,
            readRef_write_ne _ _ _ _ hne]
          exact hkeep1
        · simp only [applyDirectivesProg, allocRef, cloneDeep, hread1, hq, hqs,
            hf, hpure, Except.map]
        · intro out hout
          rw [hpure] at hout
          cases hout
          simp only [applyDirectivesProg, allocRef, cloneDeep, hread1, hq, hqs, hf]
          rw [readRef_write_self _ _ _ (by
            simp only [writeRef_docs_length, writeRef, List.length_set,
              List.length_append, List.length_cons, List.length_nil]
            omega)]
          rw [readRef_write_self _ _ _ (by
            simp only [writeRef_docs_length, writeRef, List.length_set,
              List.length_append, List.length_cons, List.length_nil]
            omega)]

/-- Witness for C6: a one-document store; after the call the caller's
reference still holds its document, the call returns like the pure
rewrite, and the clone's reference holds the rewritten document. -/
theorem claim6_witness :
    readRef (applyDirectivesProg standardResolvers emptyVars 0
        ⟨[includeTrueDocument]⟩).2 0 = includeTrueDocument ∧
    (applyDirectivesProg standardResolvers emptyVars 0 ⟨[includeTrueDocument]⟩).1 =
      Except.map (fun _ => 1)
        (applyDirectives includeTrueDocument emptyVars standardResolvers) ∧
    ∀ out, applyDirectives includeTrueDocument emptyVars standardResolvers = .ok out →
      readRef (applyDirectivesProg standardResolvers emptyVars 0
        ⟨[includeTrueDocument]⟩).2 1 = out :=
  claim6_caller_document_untouched standardResolvers emptyVars 0
    ⟨[includeTrueDocument]⟩ (by decide)

/-- C7: `skipIncludeDirectiveResolver` errors exactly when the directive
does not carry a single argument named `if` whose value is a literal
boolean or a bound variable; otherwise it resolves the condition,
inverts it for `skip`, and returns the selection (true) or the removal
sentinel (false). -/
theorem claim7_resolver_characterization (n : String) (sel : Selection)
    (vars : Variables) (d : Directive) :
    (directiveConditionValue d vars = none →
      ∃ e, skipIncludeDirectiveResolver n sel vars d = .error e) ∧
    (∀ b, directiveConditionValue d vars = some b →
      skipIncludeDirectiveResolver n sel vars d =
        .ok (if (if n = "skip" then !b else b) then some sel else none)) := by
  obtain ⟨dname, dargs⟩ := d
  rcases dargs with _ | ⟨⟨aname, aval⟩, _ | ⟨a2, l⟩⟩
  · exact ⟨fun _ => ⟨_, rfl⟩, fun b hb => by simp [directiveConditionValue] at hb⟩
  · by_cases hn : aname = some "if"
    · cases aval with
      | booleanValue b0 =>
        constructor
        · intro hnone
          simp [directiveConditionValue, hn] at hnone
        · intro b hb
          simp [directiveConditionValue, hn] at hb
          subst hb
          by_cases hs : n = "skip" <;> cases b0 <;>
            simp [skipIncludeDirectiveResolver, hn, hs]
      | variableValue x =>
        cases hx : vars x with
        | none =>
          constructor
          · intro _
            exact ⟨"Invalid variable referenced in @" ++ n ++ " directive.",
              by simp [skipIncludeDirectiveResolver, hn, hx]⟩
          · intro b hb
            simp [directiveConditionValue, hn, hx] at hb
        | some b0 =>
          constructor
          · intro hnone
            simp [directiveConditionValue, hn, hx] at hnone
          · intro b hb
            simp [directiveConditionValue, hn, hx] at hb
            subst hb
            by_cases hs : n = "skip" <;> cases b0 <;>
              simp [skipIncludeDirectiveResolver, hn, hx, hs]
      | otherValue =>
        constructor
        · intro _
          exact ⟨"Invalid argument value for the @" ++ n ++ " directive.",
            by simp [skipIncludeDirectiveResolver, hn]⟩
        · intro b hb
          simp [directiveConditionValue, hn] at hb
    · constructor
      · intro _
        exact ⟨"Invalid argument for the @" ++ n ++ " directive.",
          by simp [skipIncludeDirectiveResolver, hn]⟩
      · intro b hb
        simp [directiveConditionValue, hn] at hb
  · exact ⟨fun _ => ⟨_, rfl⟩, fun b hb => by simp [directiveConditionValue] at hb⟩

/-- Witness for C7: a `skip` directive with no arguments errors. -/
theorem claim7_witness :
    ∃ e, skipIncludeDirectiveResolver "skip" (Selection.field "a" [] none)
      emptyVars ⟨some "skip", []⟩ = .error e :=
  (claim7_resolver_characterization "skip" (Selection.field "a" [] none)
    emptyVars ⟨some "skip", []⟩).1 rfl

/-- C8 (counterexample): the rewritten output still carries its
skip/include directives — the rewrite does not strip them.  The
one-field `@include(if: true)` query rewrites to itself, and that
output still contains an include directive to re-evaluate. -/
theorem claim8_counterexample :
    applyDirectives includeTrueDocument emptyVars standardResolvers =
      .ok includeTrueDocument ∧
    documentHasSkipInclude includeTrueDocument = true :=
  ⟨rfl, rfl⟩

/-- C8 (amended): applying the directive rewrite to a document and then
re-applying it with the same variables yields the same document —
because kept selections keep their directives and a second evaluation
reaches the same decisions — although the once-rewritten output may
still contain skip/include directives. -/
theorem claim8_idempotent (doc : Document) (vars : Variables) (rs : Resolvers)
    (out : Document) (h : applyDirectives doc vars rs = .ok out) :
    applyDirectives out vars rs = .ok out :=
  applyDirectives_idem_aux doc vars rs out h

/-- Witness for C8: re-applying the rewrite to the rewritten one-field
include query reproduces it. -/
theorem claim8_witness :
    applyDirectives includeTrueDocument emptyVars standardResolvers =
      .ok includeTrueDocument :=
  claim8_idempotent includeTrueDocument emptyVars standardResolvers
    includeTrueDocument rfl

/-- C10: on success, the output document's definitions are exactly the
rewritten query operation definition first — wherever it sat in the
input — followed by the rewritten fragment definitions in their input
relative order; no other definition survives. -/
theorem claim10_definition_order (doc : Document) (vars : Variables)
    (rs : Resolvers) (out : Document)
    (h : applyDirectives doc vars rs = .ok out) :
    ∃ qd qss,
      getQueryDefinition doc = .ok qd ∧
      applyDirectivesToSelectionSet rs vars qd.selectionSet = .ok qss ∧
      out.definitions.length =
        (doc.definitions.filter Definition.isFragmentDefinition).length + 1 ∧
      out.definitions.head? = some (qd.withSelectionSet qss) ∧
      ∀ (i : Nat) (hi : i < (doc.definitions.filter Definition.isFragmentDefinition).length)
        (hi' : i + 1 < out.definitions.length),
        ∃ fss,
          applyDirectivesToSelectionSet rs vars
            ((doc.definitions.filter Definition.isFragmentDefinition).get
              ⟨i, hi⟩).selectionSet = .ok fss ∧
          out.definitions.get ⟨i + 1, hi'⟩ =
            ((doc.definitions.filter Definition.isFragmentDefinition).get
              ⟨i, hi⟩).withSelectionSet fss := by
  obtain ⟨qd, newSS, newFrags, hq, hqs, hf, hout⟩ :=
    applyDirectives_ok_elim doc vars rs out h
  obtain ⟨hlen, hpt⟩ :=
    rewriteFragmentDefs_pointwise rs vars (getFragmentDefinitions doc) newFrags hf
  subst hout
  refine ⟨qd, newSS, hq, hqs, ?_, rfl, ?_⟩
  · simp only [getFragmentDefinitions] at hlen
    simp [hlen]
  · intro i hi hi'
    have hi2 : i < (getFragmentDefinitions doc).length := by
      simpa [getFragmentDefinitions] using hi
    have hi3 : i < newFrags.length := by rw [hlen]; exact hi2
    obtain ⟨fss, hfss, hgets⟩ := hpt i hi2 hi3
    refine ⟨fss, ?_, ?_⟩
    · simpa [getFragmentDefinitions] using hfss
    · show (qd.withSelectionSet newSS :: newFrags).get ⟨i + 1, hi'⟩ = _
      rw [List.get_cons_succ]
      simpa [getFragmentDefinitions] using hgets

/-- Witness for C10: a document listing a fragment before its query is
rewritten with the query definition moved to the front. -/
theorem claim10_witness :
    ∃ qd qss,
      getQueryDefinition reorderDocument = .ok qd ∧
      applyDirectivesToSelectionSet standardResolvers emptyVars qd.selectionSet
        = .ok qss ∧
      reorderedDocument.definitions.length =
        (reorderDocument.definitions.filter Definition.isFragmentDefinition).length + 1 ∧
      reorderedDocument.definitions.head? = some (qd.withSelectionSet qss) ∧
      ∀ (i : Nat)
        (hi : i < (reorderDocument.definitions.filter Definition.isFragmentDefinition).length)
        (hi' : i + 1 < reorderedDocument.definitions.length),
        ∃ fss,
          applyDirectivesToSelectionSet standardResolvers emptyVars
            ((reorderDocument.definitions.filter Definition.isFragmentDefinition).get
              ⟨i, hi⟩).selectionSet = .ok fss ∧
          reorderedDocument.definitions.get ⟨i + 1, hi'⟩ =
            ((reorderDocument.definitions.filter Definition.isFragmentDefinition).get
              ⟨i, hi⟩).withSelectionSet fss :=
  claim10_definition_order reorderDocument emptyVars standardResolvers
    reorderedDocument rfl

end ApolloDirectives

namespace ApolloScheduler

/-- C4: in every reachable scheduler state, each QueryId has at most one
outstanding execution (the InFlightSet has no duplicates), and a tick
that fires for a QueryId whose execution is still in flight changes
nothing — no new execution is started and nothing fails. -/
theorem claim4_single_inflight_per_query (events : List SchedulerEvent) :
    (runScheduler events).inFlight.Nodup ∧
    ∀ qid ∈ (runScheduler events).inFlight,
      tick qid (runScheduler events) = runScheduler events := by
  constructor
  · exact foldl_preserves_nodup events initialSchedulerState List.nodup_nil
  · intro qid hq
    exact tick_inflight_noop qid _ hq

/-- Witness for C4: after registering one polling query and one tick,
the in-flight set is duplicate-free and a second tick for the same
QueryId is a no-op. -/
theorem claim4_witness :
    (runScheduler [SchedulerEvent.startEvent ⟨some 10⟩,
      SchedulerEvent.tickEvent 0]).inFlight.Nodup ∧
    tick 0 (runScheduler [SchedulerEvent.startEvent ⟨some 10⟩,
      SchedulerEvent.tickEvent 0]) =
      runScheduler [SchedulerEvent.startEvent ⟨some 10⟩, SchedulerEvent.tickEvent 0] := by
  have h := claim4_single_inflight_per_query
    [SchedulerEvent.startEvent ⟨some 10⟩, SchedulerEvent.tickEvent 0]
  exact ⟨h.1, h.2 0 (by decide)⟩

/-- C9: `startPollingQuery` errors exactly when the descriptor's poll
interval is absent or non-positive; a successful registration starts no
execution (the execution log and the InFlightSet are untouched) and
records the registration. -/
theorem claim9_registration_fail_fast (d : PollingQueryDescriptor)
    (st : SchedulerState) :
    ((∃ e, startPollingQuery d st = .error e) ↔
      (d.pollInterval = none ∨ ∃ i, d.pollInterval = some i ∧ i ≤ 0)) ∧
    (∀ qid st', startPollingQuery d st = .ok (qid, st') →
      st'.executionLog = st.executionLog ∧ st'.inFlight = st.inFlight ∧
        (qid, d) ∈ st'.registered) := by
  cases hi : d.pollInterval with
  | none =>
    constructor
    · constructor
      · intro _
        exact Or.inl rfl
      · intro _
        exact ⟨"Attempted to register a non-polling query with the scheduler.",
          by simp [startPollingQuery, hi]⟩
    · intro qid st' h
      simp [startPollingQuery, hi] at h
  | some i =>
    by_cases hpos : i ≤ 0
    · constructor
      · constructor
        · intro _
          exact Or.inr ⟨i, rfl, hpos⟩
        · intro _
          exact ⟨"Attempted to register a non-polling query with the scheduler.",
            by simp [startPollingQuery, hi, hpos]⟩
      · intro qid st' h
        simp [startPollingQuery, hi, hpos] at h
    · constructor
      · constructor
        · rintro ⟨e, he⟩
          simp [startPollingQuery, hi, hpos] at he
        · rintro (hnone | ⟨i', hi', hpos'⟩)
          · cases hnone
          · cases hi'
            exact absurd hpos' hpos
      · intro qid st' h
        simp only [startPollingQuery, hi, if_neg hpos, Except.ok.injEq,
          Prod.mk.injEq] at h
        obtain ⟨h1, h2⟩ := h
        subst h1
        subst h2
        exact ⟨rfl, rfl, by simp⟩

/-- Witness for C9: registering a descriptor without an interval errors. -/
theorem claim9_witness :
    ∃ e, startPollingQuery ⟨none⟩ initialSchedulerState = .error e :=
  (claim9_registration_fail_fast ⟨none⟩ initialSchedulerState).1.mpr (Or.inl rfl)

end ApolloScheduler
